import Mathlib

/-!
# Verification of the ensureconda core (Go sources)

Shallow embedding of the conda/mamba locator-installer:

* `relLess`/`pep440Parse` model the fragment of the external
  `go-pep440-version` library exercised here: plain release versions
  `N(.N)*`, compared component-wise with zero padding (PEP 440 release
  ordering).  All version strings appearing in the repository's own code
  and in the claims are of this shape.
* `AnacondaPkg`, `pkgLess`, `candidatesFiltered`, `computeCandidates`
  embed the candidate selection from `install.go`
  (`AnacondaPkgs.Less`, `computeCandidates`).
* `getChannelName`, `isFreshAge`, `InstallCondaStandalone` embed the
  install gating (channel validation, freshness check); network fetch,
  file stat and archive download are oracles, and the returned `Bool`
  records whether any network request was issued.
* `extractTarFile`, `extractTarFiles`, `downloadAndUnpack*` embed the
  archive extraction as a trace of file-system/network events
  (`FsEvent`), with lock acquisition and byte-copy outcomes supplied by
  oracles; `sort.Sort` from the Go standard library is embedded by its
  contract `goSorted` (some permutation with no inversion under `Less` —
  the library does not specify which one when elements tie).
* `executableHasMinVersion`, `FindExecutable`, `ResolveExecutable`
  embed `resolve.go`; the process table and file system are oracles.
* `EnsureConda` and `PlatformSubdir` embed `ensureconda.go`.
-/

/-- Split a character list at every occurrence of `sep`, keeping empty
segments (the semantics of Go's `strings.Split` with a one-character
separator). -/
def splitOnChar (sep : Char) : List Char → List (List Char)
  | [] => [[]]
  | c :: cs =>
    if c = sep then [] :: splitOnChar sep cs
    else
      match splitOnChar sep cs with
      | [] => [[c]]
      | t :: ts => (c :: t) :: ts

/-- Split a character list at every character satisfying `p`, keeping
empty segments. -/
def splitOnPred (p : Char → Bool) : List Char → List (List Char)
  | [] => [[]]
  | c :: cs =>
    if p c then [] :: splitOnPred p cs
    else
      match splitOnPred p cs with
      | [] => [[c]]
      | t :: ts => (c :: t) :: ts

/-- `strings.ReplaceAll(s, "\r\n", "\n")`: left-to-right replacement of
non-overlapping occurrences. -/
def replaceCRLF : List Char → List Char
  | [] => []
  | '\r' :: '\n' :: rest => '\n' :: replaceCRLF rest
  | c :: rest => c :: replaceCRLF rest

/-- Substring test on character lists (`strings.Contains`). -/
def containsSub : List Char → List Char → Bool
  | [], needle => needle.isEmpty
  | c :: cs, needle => needle.isPrefixOf (c :: cs) || containsSub cs needle

/-- Decimal value of an all-digit character list (accumulator form). -/
def digitsVal (acc : Nat) : List Char → Nat
  | [] => acc
  | c :: cs => digitsVal (acc * 10 + (c.toNat - '0'.toNat)) cs

/-- `strings.HasPrefix`. -/
def strStartsWith (s pre : String) : Bool := pre.toList.isPrefixOf s.toList

/-- `strings.HasSuffix`. -/
def strEndsWith (s sfx : String) : Bool := sfx.toList.isSuffixOf s.toList

/-- Fragment of the external pep440 library's `Parse`, modelling its
behaviour on plain release versions `N(.N)*`; every other string is
rejected (`none`), which is how unparseable versions are filtered. -/
def pep440ParseChars (cs : List Char) : Option (List Nat) :=
  let parts := splitOnChar '.' cs
  if parts.all (fun p => !p.isEmpty && p.all Char.isDigit) then
    some (parts.map (digitsVal 0))
  else none

/-- `pep440ParseChars` on a `String`. -/
def pep440Parse (s : String) : Option (List Nat) := pep440ParseChars s.toList

/-- `true` when every release component is zero (used for PEP 440 zero
padding of the shorter release list). -/
def allZero : List Nat → Bool
  | [] => true
  | a :: as => a == 0 && allZero as

/-- PEP 440 release-segment strict order: compare component-wise, with
the shorter list padded with zeros. Models `Version.LessThan` of the
external pep440 library on release-only versions. -/
def relLess : List Nat → List Nat → Bool
  | [], bs => !allZero bs
  | _ :: _, [] => false
  | a :: as, b :: bs => a < b || (a == b && relLess as bs)

structure AnacondaPkgAttr where
  Subdir : String
  Build : String
  BuildNumber : Int
  Timestamp : Nat
deriving DecidableEq, Repr

structure AnacondaPkg where
  Size : Nat
  Attrs : AnacondaPkgAttr
  PkgType : String
  Version : String
  DownloadUrl : String
deriving DecidableEq, Repr

/-- `AnacondaPkgs.Less` from `install.go`: strict order by parsed
version, then build number, then timestamp.  The Go code panics when a
version fails to parse (unreachable after filtering); the model returns
`false` there. -/
def pkgLess (a b : AnacondaPkg) : Bool :=
  match pep440Parse a.Version, pep440Parse b.Version with
  | some iVer, some jVer =>
    if relLess iVer jVer then true
    else if relLess jVer iVer then false
    else if a.Attrs.BuildNumber < b.Attrs.BuildNumber then true
    else if b.Attrs.BuildNumber < a.Attrs.BuildNumber then false
    else decide (a.Attrs.Timestamp < b.Attrs.Timestamp)
  | _, _ => false

/-- Non-strict companion of `pkgLess`, as a `Prop`: `pkgR a b` states
that `a` may precede `b` in a list sorted by `sort.Sort` (no inversion:
`b` is not less than `a`). -/
def pkgR (a b : AnacondaPkg) : Prop := pkgLess b a = false

instance : DecidableRel pkgR := fun a b =>
  inferInstanceAs (Decidable (pkgLess b a = false))

/-- Contract of Go's `sort.Sort(AnacondaPkgs(l))`: the output `s` is a
permutation of `l` with no inversion under `Less`.  The Go library
documents exactly this (it is not stable), so any such `s` is a
possible result. -/
def goSorted (l s : List AnacondaPkg) : Prop :=
  s.Perm l ∧ s.Pairwise pkgR

/-- `strings.Contains` from the Go standard library. -/
def strContains (s sub : String) : Bool := containsSub s.toList sub.toList

/-- The filtering stage of `computeCandidates` in `install.go`: keep
descriptors whose subdir matches and whose build label does not contain
`"_onedir_"`, then drop descriptors whose version does not parse. -/
def candidatesFiltered (data : List AnacondaPkg) (subdir : String) : List AnacondaPkg :=
  (data.filter
      (fun d => d.Attrs.Subdir == subdir && !strContains d.Attrs.Build "_onedir_")).filter
    (fun c => (pep440Parse c.Version).isSome)

def noParseMsg (subdir : String) : String :=
  "no parseable conda-standalone versions found for " ++ subdir

/-- `computeCandidates` from `install.go`, with the fetched registry
body `data` supplied as an oracle and `sort.Sort` abstracted as the
function `sortImpl` (see `goSorted` for the contract it satisfies). -/
def computeCandidates (sortImpl : List AnacondaPkg → List AnacondaPkg)
    (data : List AnacondaPkg) (subdir : String) : Except String (List AnacondaPkg) :=
  let filtered := candidatesFiltered data subdir
  if filtered.isEmpty then Except.error (noParseMsg subdir)
  else Except.ok (sortImpl filtered)

/-- `candidates[len(candidates)-1]` — the element the installer picks
from the sorted candidate list. -/
def lastElem? : List α → Option α
  | [] => none
  | [a] => some a
  | _ :: b :: t => lastElem? (b :: t)

/-- `PlatformSubdir` from `ensureconda.go`: Go map lookup with the
zero-value `""` default for unsupported OS/arch pairs. -/
def PlatformSubdir (osName arch : String) : String :=
  if osName == "darwin" && arch == "amd64" then "osx-64"
  else if osName == "darwin" && arch == "arm64" then "osx-arm64"
  else if osName == "linux" && arch == "amd64" then "linux-64"
  else if osName == "linux" && arch == "arm64" then "linux-aarch64"
  else if osName == "linux" && arch == "ppc64le" then "linux-ppc64le"
  else if osName == "windows" && arch == "amd64" then "win-64"
  else ""

/-- The character class of the channel-name regexp `^[a-zA-Z0-9_-]+$`. -/
def validChannelChar (c : Char) : Bool :=
  c.isAlpha || c.isDigit || c == '-' || c == '_'

/-- `getChannelName` from `install.go`; the environment variable
`ENSURECONDA_CONDA_STANDALONE_CHANNEL` is the argument. -/
def getChannelName (channelEnv : String) : Except String String :=
  let channel := if channelEnv == "" then "anaconda" else channelEnv
  if (channel != "") && channel.toList.all validChannelChar then Except.ok channel
  else
    Except.error ("invalid channel name " ++ channel ++
      ". Channel names must be alphanumeric and may contain hyphens and underscores")

/-- `redownloadWhenOlder` from `install.go` (24 h), in nanoseconds as a
Go `time.Duration`. -/
def redownloadWhenOlder : Int := 24 * 60 * 60 * 1000000000

/-- `negativeAgeTolerance` from `install.go` (−60 s), in nanoseconds. -/
def negativeAgeTolerance : Int := -60 * 1000000000

/-- The freshness test of `InstallCondaStandalone`
(`age < redownloadWhenOlder && age > negativeAgeTolerance`). -/
def isFreshAge (age : Int) : Bool :=
  decide (age < redownloadWhenOlder) && decide (negativeAgeTolerance < age)

/-- `InstallCondaStandalone` from `install.go`, control flow only: the
`stat` of the target (as an optional age), the fetched registry body,
the sorted pick and the archive download are oracles.  The second
component records whether any network request was issued. -/
def InstallCondaStandalone (channelEnv subdir target : String)
    (statAge : Option Int) (registry : List AnacondaPkg)
    (pick : List AnacondaPkg → AnacondaPkg)
    (download : String → Except String String) : Except String String × Bool :=
  match getChannelName channelEnv with
  | Except.error e => (Except.error e, false)
  | Except.ok _channel =>
    let freshHit := match statAge with
      | some age => isFreshAge age
      | none => false
    if freshHit then (Except.ok target, false)
    else
      let filtered := candidatesFiltered registry subdir
      if filtered.isEmpty then
        (Except.error ("listing conda-standalone candidates: " ++ noParseMsg subdir), true)
      else
        match download ("https:" ++ (pick filtered).DownloadUrl) with
        | Except.error e =>
          (Except.error ("downloading or unpacking conda-standalone: " ++ e), true)
        | Except.ok exe => (Except.ok exe, true)

/-! ## Version predicate (`resolve.go`) -/

/-- `parts[len(parts)-1]` after `strings.Split(line, " ")` — the final
field of the line split on single space characters. -/
def lastSpaceToken (line : List Char) : List Char :=
  ((splitOnChar ' ' line).getLast?).getD []

/-- Line splitting of the version output: normalize `"\r\n"` to `"\n"`,
then split on `"\n"`. -/
def splitVersionOutput (stdout : String) : List (List Char) :=
  splitOnChar '\n' (replaceCRLF stdout.toList)

/-- The scanning loop of `executableHasMinVersion`: first line with the
given prefix whose last space-separated field parses as a version not
less than `minVersion` yields `true`; unparseable or too-low lines are
skipped. -/
def scanVersionLines (minVersion : List Nat) (pre : String) : List (List Char) → Bool
  | [] => false
  | line :: rest =>
    if pre.toList.isPrefixOf line then
      match pep440ParseChars (lastSpaceToken line) with
      | some v =>
        if relLess v minVersion then scanVersionLines minVersion pre rest else true
      | none => scanVersionLines minVersion pre rest
    else scanVersionLines minVersion pre rest

/-- `executableHasMinVersion` from `resolve.go`; running
`executable --version` is an oracle (`Except.error` when the executable
could not be invoked, `Except.ok stdout` otherwise). -/
def executableHasMinVersion (minVersion : List Nat) (pre : String)
    (execResult : Except String String) : Bool × Option String :=
  match execResult with
  | Except.error e => (false, some e)
  | Except.ok stdout => (scanVersionLines minVersion pre (splitVersionOutput stdout), none)

/-- One line qualifying, with the code's tokenization (split on single
spaces). -/
def lineQualifiesB (minVersion : List Nat) (pre : String) (line : List Char) : Bool :=
  pre.toList.isPrefixOf line &&
    (match pep440ParseChars (lastSpaceToken line) with
     | some v => !relLess v minVersion
     | none => false)

/-- Modelled from the spec: "the last whitespace-separated token of the
matching line" — the last maximal run of non-whitespace characters.
Used only to compare the spec's wording against the code's
space-splitting. -/
def lastWhitespaceToken (line : List Char) : List Char :=
  ((((splitOnPred Char.isWhitespace line).filter (fun t => !t.isEmpty)).getLast?).getD [])

/-- One line qualifying, with the spec's wording ("last
whitespace-separated token"). -/
def lineQualifiesSpecB (minVersion : List Nat) (pre : String) (line : List Char) : Bool :=
  pre.toList.isPrefixOf line &&
    (match pep440ParseChars (lastWhitespaceToken line) with
     | some v => !relLess v minVersion
     | none => false)

/-! ## Path resolution (`resolve.go`) -/

structure FileStat where
  isDir : Bool
  mode : Nat
deriving DecidableEq, Repr

/-- `assertExecutable` from `resolve.go`, as a Boolean: `stat` succeeds,
the entry is not a directory, and some executable bit (0111) is set.
The file system is the oracle `fs`. -/
def assertExecutable (fs : String → Option FileStat) (file : String) : Bool :=
  match fs file with
  | none => false
  | some d => !d.isDir && (d.mode &&& 0o111 != 0)

/-- `filepath.Join dir name`; a `"."` or empty directory contributes
just the name (Go's `Join` cleans `"./name"` to `"name"`). -/
def joinPath (dir name : String) : String :=
  if dir == "" || dir == "." then name else dir ++ "/" ++ name

def pyenvShims : String := ".pyenv/shims"

/-- `FindExecutable` from `resolve.go`: walk the directories in order,
treating `""` as `"."`, and return the first `dir/name` that is an
executable file and satisfies the predicate (predicate errors are
swallowed). -/
def FindExecutable (executableFileName : String) (searchPath : List String)
    (fs : String → Option FileStat)
    (predicate : String → Except String Bool) : Except String String :=
  match searchPath with
  | [] => Except.error "could not find executable"
  | dir :: rest =>
    let dir' := if dir == "" then "." else dir
    let path := joinPath dir' executableFileName
    if assertExecutable fs path then
      match predicate path with
      | Except.ok true => Except.ok path
      | _ => FindExecutable executableFileName rest fs predicate
    else FindExecutable executableFileName rest fs predicate

/-- `ResolveExecutable` from `resolve.go`: the data directory followed by
the system path with every directory containing `".pyenv/shims"`
removed. -/
def ResolveExecutable (executableName dataDir : String) (pathEnv : List String)
    (fs : String → Option FileStat)
    (predicate : String → Except String Bool) : Except String String :=
  FindExecutable executableName
    (dataDir :: pathEnv.filter (fun d => !strContains d pyenvShims)) fs predicate

/-- Whether a search-path directory qualifies in `FindExecutable`. -/
def dirQualifies (name : String) (fs : String → Option FileStat)
    (predicate : String → Except String Bool) (dir : String) : Bool :=
  assertExecutable fs (joinPath (if dir == "" then "." else dir) name) &&
    (match predicate (joinPath (if dir == "" then "." else dir) name) with
     | Except.ok true => true
     | _ => false)

/-! ## EnsureConda (`ensureconda.go`) -/

/-- The conda-standalone leg of `EnsureConda` (resolve, then install
when allowed, keeping the installed executable only if it validates). -/
def ensureCondaStep4 (condaStandalone noInstall : Bool)
    (resolve : String → String) (install : String → Except String String)
    (check : String → String → Bool) : String × Option String :=
  if condaStandalone then
    if resolve "conda_standalone" ≠ "" then (resolve "conda_standalone", none)
    else if !noInstall then
      match install "conda_standalone" with
      | Except.error e => ("", some e)
      | Except.ok exe =>
        if check "conda_standalone" exe then (exe, none) else ("", none)
    else ("", none)
  else ("", none)

/-- The conda leg of `EnsureConda` (resolve only). -/
def ensureCondaStep3 (conda condaStandalone noInstall : Bool)
    (resolve : String → String) (install : String → Except String String)
    (check : String → String → Bool) : String × Option String :=
  if conda && resolve "conda" ≠ "" then (resolve "conda", none)
  else ensureCondaStep4 condaStandalone noInstall resolve install check

/-- The micromamba leg of `EnsureConda`. -/
def ensureCondaStep2 (micromamba conda condaStandalone noInstall : Bool)
    (resolve : String → String) (install : String → Except String String)
    (check : String → String → Bool) : String × Option String :=
  if micromamba then
    if resolve "micromamba" ≠ "" then (resolve "micromamba", none)
    else if !noInstall then
      match install "micromamba" with
      | Except.error e => ("", some e)
      | Except.ok exe =>
        if check "micromamba" exe then (exe, none)
        else ensureCondaStep3 conda condaStandalone noInstall resolve install check
    else ensureCondaStep3 conda condaStandalone noInstall resolve install check
  else ensureCondaStep3 conda condaStandalone noInstall resolve install check

/-- `EnsureConda` from `ensureconda.go`.  `resolve` gives, per tool
name, the executable found on the search path (`""` when none, matching
how the Go code ignores `ResolveExecutable` errors); `install` is the
per-tool installer; `check` the per-tool version validation (its error
is discarded by the Go code). Returns (executable, error). -/
def EnsureConda (mamba micromamba conda condaStandalone noInstall : Bool)
    (resolve : String → String) (install : String → Except String String)
    (check : String → String → Bool) : String × Option String :=
  if mamba && resolve "mamba" ≠ "" then (resolve "mamba", none)
  else ensureCondaStep2 micromamba conda condaStandalone noInstall resolve install check

/-! ## Archive extraction (`install.go`), as a trace of events -/

/-- `tar.TypeReg` (the byte `'0'`). -/
def tarTypeReg : Nat := 48

structure TarHeader where
  name : String
  typeflag : Nat
  size : Nat
  mode : Nat
deriving DecidableEq, Repr

/-- One observable step of an `installFrom` run: the network fetch, an
advisory-lock acquisition attempt, the write of a temp file, the
executable-bit fixup, and the rename into place. -/
inductive FsEvent where
  | fetch (url : String)
  | lockAttempt (lockName : String) (acquired : Bool)
  | writeTemp (path : String) (bytes : Nat)
  | chmodExe (path : String)
  | rename (src : String) (dst : String)
deriving DecidableEq, Repr

def isLockEvent : FsEvent → Bool
  | FsEvent.lockAttempt _ _ => true
  | _ => false

def isFetchEvent : FsEvent → Bool
  | FsEvent.fetch _ => true
  | _ => false

def isRenameEvent : FsEvent → Bool
  | FsEvent.rename _ _ => true
  | _ => false

/-- The lock names appearing in a trace. -/
def lockNames (evs : List FsEvent) : List String :=
  evs.filterMap (fun e => match e with
    | FsEvent.lockAttempt n _ => some n
    | _ => none)

/-- The retry policy of `extractTarFile`:
`retry.NewRetrier(10, 100*time.Millisecond, 5*time.Second)`. -/
structure RetrierConfig where
  maxAttempts : Nat
  initialSleepMs : Nat
  maxSleepMs : Nat
deriving DecidableEq, Repr

def extractRetrier : RetrierConfig := ⟨10, 100, 5000⟩

/-- Go map lookup `fileNameMap[header.Name]` with the zero-value `""`
default. -/
def lookupFileNameMap (m : List (String × String)) (k : String) : String :=
  match m.find? (fun p => p.1 == k) with
  | some p => p.2
  | none => ""

/-- One attempt of the retried body of `extractTarFile`: try the lock
on `targetFileName + ".lock"`; when held, open/truncate and copy into
`targetFileName`, failing when the copied byte count differs from the
header's recorded size.  `lockOk` and `copied` are the oracle outcomes
of this attempt. -/
def extractAttempt (header : TarHeader) (targetFileName : String)
    (lockOk : Bool) (copied : Nat) : Except String Unit × List FsEvent :=
  if !lockOk then
    (Except.error "could not lock", [FsEvent.lockAttempt (targetFileName ++ ".lock") false])
  else if copied ≠ header.size then
    (Except.error "unexpected bytes written",
      [FsEvent.lockAttempt (targetFileName ++ ".lock") true,
       FsEvent.writeTemp targetFileName copied])
  else
    (Except.ok (),
      [FsEvent.lockAttempt (targetFileName ++ ".lock") true,
       FsEvent.writeTemp targetFileName copied])

/-- `retry.Retrier.Run`: run the attempt, stop on success, otherwise
retry until the attempt budget is exhausted and surface the last
error.  The trace concatenates the attempts' traces. -/
def runRetrier (f : Nat → Except String Unit × List FsEvent) :
    Nat → Nat → Except String Unit × List FsEvent
  | 0, _ => (Except.error "retries exhausted", [])
  | fuel + 1, idx =>
    match f idx with
    | (Except.ok _, evs) => (Except.ok (), evs)
    | (Except.error e, evs) =>
      if fuel = 0 then (Except.error e, evs)
      else
        let rest := runRetrier f fuel (idx + 1)
        (rest.1, evs ++ rest.2)

/-- `extractTarFile` from `install.go` (the caller passes the temp file
path as `targetFileName`). -/
def extractTarFile (header : TarHeader) (targetFileName : String)
    (lockOk : Nat → Bool) (copied : Nat → Nat) : Except String Unit × List FsEvent :=
  runRetrier (fun k => extractAttempt header targetFileName (lockOk k) (copied k))
    extractRetrier.maxAttempts 0

/-- `extractTarFiles` from `install.go`: scan the tar entries in order;
on the first regular file whose name maps to a non-empty target, extract
into `target + ".tmp"`, set the owner-executable bit, and rename the
temp file onto the target. -/
def extractTarFiles : List TarHeader → List (String × String) →
    (Nat → Bool) → (Nat → Nat) → Except String String × List FsEvent
  | [], _, _, _ => (Except.error "could not find file in the tarball", [])
  | header :: rest, fileNameMap, lockOk, copied =>
    if header.typeflag == tarTypeReg then
      let targetFileName := lookupFileNameMap fileNameMap header.name
      let tmpFileName := targetFileName ++ ".tmp"
      if targetFileName ≠ "" then
        match extractTarFile header tmpFileName lockOk copied with
        | (Except.error e, evs) => (Except.error e, evs)
        | (Except.ok _, evs) =>
          (Except.ok targetFileName,
            evs ++ [FsEvent.chmodExe tmpFileName, FsEvent.rename tmpFileName targetFileName])
      else extractTarFiles rest fileNameMap lockOk copied
    else extractTarFiles rest fileNameMap lockOk copied

inductive ArchiveType where
  | UnrecognizedArchive
  | TarBz2Archive
  | CondaArchive
deriving DecidableEq, Repr

/-- `inferArchiveTypeFromUrl` from `install.go`. -/
def inferArchiveTypeFromUrl (url : String) : ArchiveType :=
  if strEndsWith url "/latest" || strEndsWith url ".tar.bz2" then ArchiveType.TarBz2Archive
  else if strEndsWith url ".conda" then ArchiveType.CondaArchive
  else ArchiveType.UnrecognizedArchive

/-- `downloadAndUnpackTarBz2`: fetch, then stream the decoded tar. The
tar entries decoded from the response body are an oracle. -/
def downloadAndUnpackTarBz2 (url : String) (tarEntries : List TarHeader)
    (fileNameMap : List (String × String)) (lockOk : Nat → Bool)
    (copied : Nat → Nat) : Except String String × List FsEvent :=
  let r := extractTarFiles tarEntries fileNameMap lockOk copied
  (r.1, FsEvent.fetch url :: r.2)

/-- A zip member of a `.conda` archive: its name and the tar entries of
its zstd-decompressed contents. -/
structure ZipEntry where
  name : String
  tarEntries : List TarHeader

/-- `downloadAndUnpackConda`: fetch and buffer the body, locate the
`pkg-conda-standalone*...tar.zst` member, and extract its tar stream. -/
def downloadAndUnpackConda (url : String) (zipEntries : List ZipEntry)
    (fileNameMap : List (String × String)) (lockOk : Nat → Bool)
    (copied : Nat → Nat) : Except String String × List FsEvent :=
  match zipEntries.find?
      (fun f => strStartsWith f.name "pkg-conda-standalone" && strEndsWith f.name ".tar.zst") with
  | some f =>
    let r := extractTarFiles f.tarEntries fileNameMap lockOk copied
    (r.1, FsEvent.fetch url :: r.2)
  | none =>
    (Except.error "could not find pkg-conda-standalone*.tar.zst file in the .conda archive",
      [FsEvent.fetch url])

/-- `downloadAndUnpackArchive` from `install.go` — the spec's
`installFrom`. -/
def downloadAndUnpackArchive (url : String) (tarEntries : List TarHeader)
    (zipEntries : List ZipEntry) (fileNameMap : List (String × String))
    (lockOk : Nat → Bool) (copied : Nat → Nat) : Except String String × List FsEvent :=
  match inferArchiveTypeFromUrl url with
  | ArchiveType.TarBz2Archive =>
    downloadAndUnpackTarBz2 url tarEntries fileNameMap lockOk copied
  | ArchiveType.CondaArchive =>
    downloadAndUnpackConda url zipEntries fileNameMap lockOk copied
  | ArchiveType.UnrecognizedArchive =>
    (Except.error ("unrecognized archive type for URL: " ++ url), [])

/-- The first tar entry `extractTarFiles` extracts: the first regular
file whose name maps to a non-empty target. -/
def firstRegMatch : List TarHeader → List (String × String) → Option TarHeader
  | [], _ => none
  | h :: rest, m =>
    if h.typeflag == tarTypeReg && lookupFileNameMap m h.name != "" then some h
    else firstRegMatch rest m

/-! ## Concrete inputs used by the witnesses and counterexamples -/

/-- Spec scenario, first descriptor: version `4.8.0`, build number 0,
timestamp 100. -/
def scenarioP1 : AnacondaPkg :=
  { Size := 0, Attrs := { Subdir := "linux-64", Build := "0", BuildNumber := 0, Timestamp := 100 },
    PkgType := "conda", Version := "4.8.0", DownloadUrl := "//repo/p1" }

/-- Spec scenario, second descriptor: version `4.8.2`, build number 1,
timestamp 100 — the expected winner. -/
def scenarioP2 : AnacondaPkg :=
  { Size := 0, Attrs := { Subdir := "linux-64", Build := "1", BuildNumber := 1, Timestamp := 100 },
    PkgType := "conda", Version := "4.8.2", DownloadUrl := "//repo/p2" }

/-- Spec scenario, third descriptor: version `4.8.2`, build number 0,
timestamp 200. -/
def scenarioP3 : AnacondaPkg :=
  { Size := 0, Attrs := { Subdir := "linux-64", Build := "0", BuildNumber := 0, Timestamp := 200 },
    PkgType := "conda", Version := "4.8.2", DownloadUrl := "//repo/p3" }

/-- Two descriptors that tie on the full ordering key (same version,
build number and timestamp) but are distinct packages. -/
def tiePkgA : AnacondaPkg :=
  { Size := 0, Attrs := { Subdir := "linux-64", Build := "a", BuildNumber := 0, Timestamp := 100 },
    PkgType := "conda", Version := "4.8.2", DownloadUrl := "//repo/a" }

def tiePkgB : AnacondaPkg :=
  { Size := 0, Attrs := { Subdir := "linux-64", Build := "b", BuildNumber := 0, Timestamp := 100 },
    PkgType := "conda", Version := "4.8.2", DownloadUrl := "//repo/b" }

/-- A tar entry for `bin/micromamba`, a 5-byte regular file. -/
def mmHeader : TarHeader := { name := "bin/micromamba", typeflag := 48, size := 5, mode := 493 }

def mmMap : List (String × String) := [("bin/micromamba", "micromamba")]

def mmUrl : String := "https://micro.mamba.pm/api/micromamba/linux-64/latest"

def allLocksOk : Nat → Bool := fun _ => true

def copyFive : Nat → Nat := fun _ => 5

def copyThree : Nat → Nat := fun _ => 3

def trivialPick : List AnacondaPkg → AnacondaPkg := fun _ => scenarioP1

def trivialDownload : String → Except String String := fun _ => Except.ok "exe"

/-- Resolution oracle finding nothing on the search path. -/
def noResolve : String → String := fun _ => ""

/-- Install oracle whose attempt fails with an error. -/
def failInstall : String → Except String String := fun _ => Except.error "download failed"

/-- Install oracle that succeeds but yields an executable that will fail
validation. -/
def badExeInstall : String → Except String String := fun _ => Except.ok "/data/micromamba"

def noCheck : String → String → Bool := fun _ _ => false

/-- A file system with a single executable file `/data/conda`. -/
def dataDirFs : String → Option FileStat := fun p =>
  if p == "/data/conda" then some { isDir := false, mode := 493 } else none

/-- A version predicate accepting every executable. -/
def okPredicate : String → Except String Bool := fun _ => Except.ok true

/-- The six OS/architecture pairs `PlatformSubdir` maps to a subdir. -/
def supportedPairs : List (String × String) :=
  [("darwin", "amd64"), ("darwin", "arm64"), ("linux", "amd64"),
   ("linux", "arm64"), ("linux", "ppc64le"), ("windows", "amd64")]

/-- The event shapes `extractTarFiles` can produce for a map target
`t`: a lock attempt on `t ++ ".tmp" ++ ".lock"`, a write of
`t ++ ".tmp"`, its chmod, or the rename of `t ++ ".tmp"` onto `t`. -/
def eventForTarget (t : String) (e : FsEvent) : Prop :=
  (∃ b, e = FsEvent.lockAttempt (t ++ ".tmp" ++ ".lock") b) ∨
  (∃ n, e = FsEvent.writeTemp (t ++ ".tmp") n) ∨
  e = FsEvent.chmodExe (t ++ ".tmp") ∨
  e = FsEvent.rename (t ++ ".tmp") t

/-- `t` is the target some archive member name maps to. -/
def isMapTarget (m : List (String × String)) (t : String) : Prop :=
  ∃ k, lookupFileNameMap m k = t

instance (l s : List AnacondaPkg) : Decidable (goSorted l s) := by
  unfold goSorted; infer_instance

/-! ## Helper lemmas -/

theorem relLess_irrefl : ∀ l, relLess l l = false
  | [] => by simp [relLess, allZero]
  | a :: as => by simp [relLess, relLess_irrefl as]

theorem pkgLess_irrefl (a : AnacondaPkg) : pkgLess a a = false := by
  unfold pkgLess
  cases h : pep440Parse a.Version with
  | none => rfl
  | some v => simp [relLess_irrefl]

theorem lastElem?_mem : ∀ (l : List α) (a : α), lastElem? l = some a → a ∈ l
  | [], a => by simp [lastElem?]
  | [x], a => by
    intro h
    simp [lastElem?] at h
    simp [h]
  | x :: y :: t, a => by
    intro h
    have hmem : a ∈ y :: t :=
      lastElem?_mem (y :: t) a (by simpa [lastElem?] using h)
    exact List.mem_cons_of_mem _ hmem

theorem lastElem?_isSome : ∀ (l : List α), l ≠ [] → ∃ a, lastElem? l = some a
  | [], h => absurd rfl h
  | [x], _ => ⟨x, rfl⟩
  | _ :: y :: t, _ => by
    obtain ⟨a, ha⟩ := lastElem?_isSome (y :: t) (by simp)
    exact ⟨a, by simpa [lastElem?] using ha⟩

theorem pairwise_lastElem {R : α → α → Prop} :
    ∀ (l : List α) (c : α), l.Pairwise R → lastElem? l = some c →
      ∀ x ∈ l, x = c ∨ R x c
  | [], c, _, h => by simp [lastElem?] at h
  | [a], c, _, h => by
    simp [lastElem?] at h
    intro x hx
    simp at hx
    subst hx
    exact Or.inl h
  | a :: b :: t, c, hp, h => by
    have h' : lastElem? (b :: t) = some c := by simpa [lastElem?] using h
    rcases List.pairwise_cons.mp hp with ⟨ha, hbt⟩
    intro x hx
    rcases List.mem_cons.mp hx with hxa | hxbt
    · subst hxa
      exact Or.inr (ha c (lastElem?_mem _ _ h'))
    · exact pairwise_lastElem (b :: t) c hbt h' x hxbt

theorem sorted_perm_eq {R : α → α → Prop} :
    ∀ (s s' : List α), s.Perm s' → s.Pairwise R → s'.Pairwise R →
      (∀ a ∈ s, ∀ b ∈ s, R a b → R b a → a = b) → s = s'
  | [], s', p, _, _, _ => (p.symm.eq_nil).symm
  | a :: t, s', p, hs, hs', hA => by
    cases s' with
    | nil => exact absurd p.eq_nil (by simp)
    | cons b t' =>
      rcases List.pairwise_cons.mp hs with ⟨ha, hst⟩
      rcases List.pairwise_cons.mp hs' with ⟨hb, hst'⟩
      by_cases hab : a = b
      · subst hab
        have pt : t.Perm t' := p.cons_inv
        have ht := sorted_perm_eq t t' pt hst hst'
          (fun x hx y hy => hA x (List.mem_cons_of_mem _ hx) y (List.mem_cons_of_mem _ hy))
        rw [ht]
      · have haS' : a ∈ b :: t' := p.mem_iff.mp (List.mem_cons_self _ _)
        have hbS : b ∈ a :: t := p.mem_iff.mpr (List.mem_cons_self _ _)
        have ha' : a ∈ t' := by
          rcases List.mem_cons.mp haS' with h1 | h1
          · exact absurd h1 hab
          · exact h1
        have hb' : b ∈ t := by
          rcases List.mem_cons.mp hbS with h1 | h1
          · exact absurd h1.symm hab
          · exact h1
        have hRab : R a b := ha b hb'
        have hRba : R b a := hb a ha'
        exact absurd (hA a (List.mem_cons_self _ _) b hbS hRab hRba) hab

/-! ## C1: selectBest returns the maximum -/

/-- C1: for every fetched candidate list, the chosen candidate (the
last element of any `sort.Sort` output of the filtered list) belongs to
the filtered list and is a maximum under `AnacondaPkgs.Less` (version
ascending, build number ascending, timestamp ascending); and on the
spec's concrete `linux-64` scenario — versions 4.8.0/4.8.2/4.8.2,
build numbers 0/1/0, timestamps 100/100/200 — every possible sort
output ends with the descriptor of version 4.8.2 and build number 1
(`scenarioP2`), and at least one sort output exists. -/
theorem selectBest_returns_maximum :
    (∀ (data : List AnacondaPkg) (subdir : String) (s : List AnacondaPkg) (c : AnacondaPkg),
        goSorted (candidatesFiltered data subdir) s → lastElem? s = some c →
        c ∈ candidatesFiltered data subdir ∧
          ∀ x ∈ candidatesFiltered data subdir, pkgLess c x = false) ∧
    candidatesFiltered [scenarioP1, scenarioP2, scenarioP3] "linux-64"
        = [scenarioP1, scenarioP2, scenarioP3] ∧
    (∀ s, goSorted (candidatesFiltered [scenarioP1, scenarioP2, scenarioP3] "linux-64") s →
        lastElem? s = some scenarioP2) ∧
    goSorted (candidatesFiltered [scenarioP1, scenarioP2, scenarioP3] "linux-64")
        [scenarioP1, scenarioP3, scenarioP2] := by
  refine ⟨?_, by decide, ?_, by decide⟩
  · intro data subdir s c hgs hlast
    obtain ⟨hperm, hpw⟩ := hgs
    have hmax := pairwise_lastElem s c hpw hlast
    refine ⟨hperm.mem_iff.mp (lastElem?_mem s c hlast), ?_⟩
    intro x hx
    have hxs : x ∈ s := hperm.mem_iff.mpr hx
    rcases hmax x hxs with h1 | h1
    · subst h1; exact pkgLess_irrefl x
    · exact h1
  · intro s hgs
    obtain ⟨hperm, hpw⟩ := hgs
    have hne : s ≠ [] := by
      intro h
      subst h
      have hnil := hperm.symm.eq_nil
      rw [show candidatesFiltered [scenarioP1, scenarioP2, scenarioP3] "linux-64"
            = [scenarioP1, scenarioP2, scenarioP3] from by decide] at hnil
      exact absurd hnil (by simp)
    obtain ⟨c, hc⟩ := lastElem?_isSome s hne
    have hmax := pairwise_lastElem s c hpw hc
    have hp2s : scenarioP2 ∈ s := hperm.mem_iff.mpr (by decide)
    rcases hmax scenarioP2 hp2s with h1 | h1
    · rw [hc, ← h1]
    · have hcmem : c ∈ candidatesFiltered [scenarioP1, scenarioP2, scenarioP3] "linux-64" :=
        hperm.mem_iff.mp (lastElem?_mem s c hc)
      rw [show candidatesFiltered [scenarioP1, scenarioP2, scenarioP3] "linux-64"
            = [scenarioP1, scenarioP2, scenarioP3] from by decide] at hcmem
      simp only [List.mem_cons, List.not_mem_nil, or_false] at hcmem
      rcases hcmem with rfl | rfl | rfl
      · exact absurd h1 (by decide)
      · exact hc
      · exact absurd h1 (by decide)

/-- Witness for C1: on the concrete scenario, the sorted output
`[scenarioP1, scenarioP3, scenarioP2]` ends with `scenarioP2`. -/
theorem selectBest_returns_maximum_witness :
    lastElem? [scenarioP1, scenarioP3, scenarioP2] = some scenarioP2 :=
  selectBest_returns_maximum.2.2.1 [scenarioP1, scenarioP3, scenarioP2] (by decide)

/-! ## C2: reorder invariance fails on tied keys -/

/-- C2 counterexample: two distinct descriptors that tie on the full
(version, build number, timestamp) key.  Both input orders are already
valid `sort.Sort` outputs of the filtered lists (no inversion under
`Less`), yet the chosen candidate (the last element) differs, so
shuffling the input can change which descriptor is returned. -/
theorem selectBest_reorder_counterexample :
    [tiePkgA, tiePkgB].Perm [tiePkgB, tiePkgA] ∧
    goSorted (candidatesFiltered [tiePkgA, tiePkgB] "linux-64") [tiePkgA, tiePkgB] ∧
    goSorted (candidatesFiltered [tiePkgB, tiePkgA] "linux-64") [tiePkgB, tiePkgA] ∧
    lastElem? [tiePkgA, tiePkgB] ≠ lastElem? [tiePkgB, tiePkgA] := by decide

/-- C2 amended: when no two distinct filtered descriptors share the
full (version, build number, timestamp) key (equivalently, the order
is antisymmetric on them), any two `sort.Sort` outputs obtained from
permuted inputs are equal, so the chosen candidate does not depend on
the input order. -/
theorem selectBest_reorder_of_injective_keys
    (data data' : List AnacondaPkg) (subdir : String) (s s' : List AnacondaPkg)
    (hperm : data.Perm data')
    (hkeys : ∀ a ∈ candidatesFiltered data subdir, ∀ b ∈ candidatesFiltered data subdir,
        pkgLess a b = false → pkgLess b a = false → a = b)
    (hs : goSorted (candidatesFiltered data subdir) s)
    (hs' : goSorted (candidatesFiltered data' subdir) s') :
    s = s' ∧ lastElem? s = lastElem? s' := by
  obtain ⟨hp, hpw⟩ := hs
  obtain ⟨hp', hpw'⟩ := hs'
  have hff : (candidatesFiltered data subdir).Perm (candidatesFiltered data' subdir) := by
    unfold candidatesFiltered
    exact (hperm.filter _).filter _
  have hss : s.Perm s' := hp.trans (hff.trans hp'.symm)
  have antisym : ∀ a ∈ s, ∀ b ∈ s, pkgR a b → pkgR b a → a = b := by
    intro a ha b hb h1 h2
    exact hkeys a (hp.mem_iff.mp ha) b (hp.mem_iff.mp hb) h2 h1
  have heq : s = s' := sorted_perm_eq s s' hss hpw hpw' antisym
  exact ⟨heq, by rw [heq]⟩

/-- Witness for the amended C2, at a two-descriptor list with distinct
keys and its reversal. -/
theorem selectBest_reorder_of_injective_keys_witness :
    [scenarioP1, scenarioP2] = ([scenarioP1, scenarioP2] : List AnacondaPkg) ∧
    lastElem? [scenarioP1, scenarioP2] = lastElem? [scenarioP1, scenarioP2] :=
  selectBest_reorder_of_injective_keys [scenarioP1, scenarioP2] [scenarioP2, scenarioP1]
    "linux-64" [scenarioP1, scenarioP2] [scenarioP1, scenarioP2]
    (by decide) (by decide) (by decide) (by decide)

/-! ## Trace lemmas for the extraction model -/

theorem extractAttempt_events (h : TarHeader) (t : String) (lk : Bool) (cp : Nat) :
    ∀ e ∈ (extractAttempt h t lk cp).2,
      (∃ b, e = FsEvent.lockAttempt (t ++ ".lock") b) ∨ ∃ n, e = FsEvent.writeTemp t n := by
  intro e he
  unfold extractAttempt at he
  cases lk with
  | false =>
    simp at he
    exact Or.inl ⟨false, he⟩
  | true =>
    by_cases hcp : cp = h.size
    · simp [hcp] at he
      rcases he with he | he
      · exact Or.inl ⟨true, he⟩
      · exact Or.inr ⟨h.size, he⟩
    · simp [hcp] at he
      rcases he with he | he
      · exact Or.inl ⟨true, he⟩
      · exact Or.inr ⟨cp, he⟩

theorem extractAttempt_lockCount (h : TarHeader) (t : String) (lk : Bool) (cp : Nat) :
    ((extractAttempt h t lk cp).2.countP isLockEvent) ≤ 1 := by
  unfold extractAttempt
  cases lk with
  | false => simp [List.countP_cons, isLockEvent]
  | true =>
    by_cases hcp : cp = h.size <;>
      simp [hcp, List.countP_cons, isLockEvent]

theorem runRetrier_events {P : FsEvent → Prop} (f : Nat → Except String Unit × List FsEvent)
    (hf : ∀ k e, e ∈ (f k).2 → P e) :
    ∀ (fuel idx : Nat), ∀ e ∈ (runRetrier f fuel idx).2, P e := by
  intro fuel
  induction fuel with
  | zero =>
    intro idx e he
    simp [runRetrier] at he
  | succ n ih =>
    intro idx e he
    unfold runRetrier at he
    rcases hfi : f idx with ⟨r, evs⟩
    rw [hfi] at he
    cases r with
    | ok u =>
      simp at he
      exact hf idx e (by rw [hfi]; exact he)
    | error msg =>
      by_cases hn : n = 0
      · simp [hn] at he
        exact hf idx e (by rw [hfi]; exact he)
      · simp [hn] at he
        rcases he with he | he
        · exact hf idx e (by rw [hfi]; exact he)
        · exact ih (idx + 1) e he

theorem runRetrier_lockCount (f : Nat → Except String Unit × List FsEvent)
    (hf : ∀ k, ((f k).2.countP isLockEvent) ≤ 1) :
    ∀ (fuel idx : Nat), ((runRetrier f fuel idx).2.countP isLockEvent) ≤ fuel := by
  intro fuel
  induction fuel with
  | zero =>
    intro idx
    simp [runRetrier]
  | succ n ih =>
    intro idx
    unfold runRetrier
    rcases hfi : f idx with ⟨r, evs⟩
    have hcnt : evs.countP isLockEvent ≤ 1 := by
      have := hf idx
      rw [hfi] at this
      exact this
    cases r with
    | ok u => exact le_trans hcnt (by omega)
    | error msg =>
      by_cases hn : n = 0
      · simp [hn]
        exact le_trans hcnt (by omega)
      · simp [hn, List.countP_append]
        have := ih (idx + 1)
        omega

theorem runRetrier_error (f : Nat → Except String Unit × List FsEvent)
    (hf : ∀ k, ∃ msg, (f k).1 = Except.error msg) :
    ∀ (fuel idx : Nat), ∃ msg, (runRetrier f fuel idx).1 = Except.error msg := by
  intro fuel
  induction fuel with
  | zero =>
    intro idx
    exact ⟨"retries exhausted", rfl⟩
  | succ n ih =>
    intro idx
    unfold runRetrier
    rcases hfi : f idx with ⟨r, evs⟩
    obtain ⟨msg, hmsg⟩ := hf idx
    rw [hfi] at hmsg
    cases r with
    | ok u => exact absurd hmsg (by simp)
    | error m =>
      by_cases hn : n = 0
      · exact ⟨m, by simp [hn]⟩
      · obtain ⟨msg', hmsg'⟩ := ih (idx + 1)
        exact ⟨msg', by simp [hn, hmsg']⟩

theorem extractTarFile_events (h : TarHeader) (t : String)
    (lk : Nat → Bool) (cp : Nat → Nat) :
    ∀ e ∈ (extractTarFile h t lk cp).2,
      (∃ b, e = FsEvent.lockAttempt (t ++ ".lock") b) ∨ ∃ n, e = FsEvent.writeTemp t n := by
  intro e he
  exact runRetrier_events _ (fun k e' he' => extractAttempt_events h t (lk k) (cp k) e' he')
    extractRetrier.maxAttempts 0 e he

theorem extractTarFile_lockCount (h : TarHeader) (t : String)
    (lk : Nat → Bool) (cp : Nat → Nat) :
    ((extractTarFile h t lk cp).2.countP isLockEvent) ≤ extractRetrier.maxAttempts :=
  runRetrier_lockCount _ (fun k => extractAttempt_lockCount h t (lk k) (cp k))
    extractRetrier.maxAttempts 0

theorem extractTarFile_error (h : TarHeader) (t : String)
    (lk : Nat → Bool) (cp : Nat → Nat) (hcp : ∀ k, cp k ≠ h.size) :
    ∃ msg, (extractTarFile h t lk cp).1 = Except.error msg := by
  apply runRetrier_error
  intro k
  unfold extractAttempt
  cases hl : lk k with
  | false => exact ⟨"could not lock", rfl⟩
  | true => exact ⟨"unexpected bytes written", by simp [hcp k]⟩

theorem extractTarFiles_events :
    ∀ (entries : List TarHeader) (m : List (String × String))
      (lk : Nat → Bool) (cp : Nat → Nat),
      ∀ e ∈ (extractTarFiles entries m lk cp).2,
        ∃ t, isMapTarget m t ∧ t ≠ "" ∧ eventForTarget t e
  | [], m, lk, cp => by
    intro e he
    simp [extractTarFiles] at he
  | h :: rest, m, lk, cp => by
    intro e he
    unfold extractTarFiles at he
    by_cases h1 : (h.typeflag == tarTypeReg) = true
    · rw [if_pos h1] at he
      by_cases h2 : lookupFileNameMap m h.name = ""
      · rw [if_neg (by simpa using h2)] at he
        exact extractTarFiles_events rest m lk cp e he
      · rw [if_pos (by simpa using h2)] at he
        rcases hx : extractTarFile h (lookupFileNameMap m h.name ++ ".tmp") lk cp with ⟨r, evs⟩
        rw [hx] at he
        have hev : ∀ e' ∈ evs,
            (∃ b, e' = FsEvent.lockAttempt (lookupFileNameMap m h.name ++ ".tmp" ++ ".lock") b) ∨
            ∃ n, e' = FsEvent.writeTemp (lookupFileNameMap m h.name ++ ".tmp") n := by
          intro e' he'
          have := extractTarFile_events h (lookupFileNameMap m h.name ++ ".tmp") lk cp e'
          rw [hx] at this
          exact this he'
        cases r with
        | error msg =>
          simp only at he
          refine ⟨lookupFileNameMap m h.name, ⟨h.name, rfl⟩, h2, ?_⟩
          rcases hev e he with h3 | h3
          · exact Or.inl h3
          · exact Or.inr (Or.inl h3)
        | ok u =>
          simp only at he
          rw [List.mem_append] at he
          refine ⟨lookupFileNameMap m h.name, ⟨h.name, rfl⟩, h2, ?_⟩
          rcases he with he | he
          · rcases hev e he with h3 | h3
            · exact Or.inl h3
            · exact Or.inr (Or.inl h3)
          · simp at he
            rcases he with he | he
            · exact Or.inr (Or.inr (Or.inl he))
            · exact Or.inr (Or.inr (Or.inr he))
    · rw [if_neg h1] at he
      exact extractTarFiles_events rest m lk cp e he

theorem extractTarFiles_lockCount :
    ∀ (entries : List TarHeader) (m : List (String × String))
      (lk : Nat → Bool) (cp : Nat → Nat),
      ((extractTarFiles entries m lk cp).2.countP isLockEvent) ≤ extractRetrier.maxAttempts
  | [], m, lk, cp => by simp [extractTarFiles]
  | h :: rest, m, lk, cp => by
    unfold extractTarFiles
    by_cases h1 : (h.typeflag == tarTypeReg) = true
    · rw [if_pos h1]
      by_cases h2 : lookupFileNameMap m h.name = ""
      · rw [if_neg (by simpa using h2)]
        exact extractTarFiles_lockCount rest m lk cp
      · rw [if_pos (by simpa using h2)]
        rcases hx : extractTarFile h (lookupFileNameMap m h.name ++ ".tmp") lk cp with ⟨r, evs⟩
        have hcnt : evs.countP isLockEvent ≤ extractRetrier.maxAttempts := by
          have := extractTarFile_lockCount h (lookupFileNameMap m h.name ++ ".tmp") lk cp
          rw [hx] at this
          exact this
        cases r with
        | error msg => exact hcnt
        | ok u =>
          simp only [List.countP_append]
          have : List.countP isLockEvent
              [FsEvent.chmodExe (lookupFileNameMap m h.name ++ ".tmp"),
               FsEvent.rename (lookupFileNameMap m h.name ++ ".tmp")
                 (lookupFileNameMap m h.name)] = 0 := by
            simp [List.countP_cons, isLockEvent]
          omega
    · rw [if_neg h1]
      exact extractTarFiles_lockCount rest m lk cp

theorem extractTarFiles_error_no_rename :
    ∀ (entries : List TarHeader) (m : List (String × String))
      (lk : Nat → Bool) (cp : Nat → Nat) (h : TarHeader),
      firstRegMatch entries m = some h → (∀ k, cp k ≠ h.size) →
      (∃ msg, (extractTarFiles entries m lk cp).1 = Except.error msg) ∧
      ∀ e ∈ (extractTarFiles entries m lk cp).2, isRenameEvent e = false
  | [], m, lk, cp, h => by
    intro hmatch
    simp [firstRegMatch] at hmatch
  | hd :: rest, m, lk, cp, h => by
    intro hmatch hcp
    unfold firstRegMatch at hmatch
    unfold extractTarFiles
    by_cases h1 : (hd.typeflag == tarTypeReg) = true
    · by_cases h2 : lookupFileNameMap m hd.name = ""
      · rw [if_neg (by simp [h1, h2])] at hmatch
        rw [if_pos h1, if_neg (by simpa using h2)]
        exact extractTarFiles_error_no_rename rest m lk cp h hmatch hcp
      · rw [if_pos (by simp [h1]; simpa using h2)] at hmatch
        have hhd : hd = h := by injection hmatch
        subst hhd
        rw [if_pos h1, if_pos (by simpa using h2)]
        rcases hx : extractTarFile hd (lookupFileNameMap m hd.name ++ ".tmp") lk cp with ⟨r, evs⟩
        obtain ⟨msg, hmsg⟩ := extractTarFile_error hd
          (lookupFileNameMap m hd.name ++ ".tmp") lk cp hcp
        rw [hx] at hmsg
        cases r with
        | ok u => exact absurd hmsg (by simp)
        | error m' =>
          simp only
          constructor
          · exact ⟨m', rfl⟩
          · intro e he
            have hev := extractTarFile_events hd (lookupFileNameMap m hd.name ++ ".tmp") lk cp e
            rw [hx] at hev
            rcases hev he with ⟨b, rfl⟩ | ⟨n, rfl⟩ <;> rfl
    · rw [if_neg (by simp [h1])] at hmatch
      rw [if_neg h1]
      exact extractTarFiles_error_no_rename rest m lk cp h hmatch hcp

/-! ## C3: lock discipline of installFrom -/

/-- C3 counterexample: a concrete `installFrom` run (micromamba latest
archive, one matching member).  A lock *is* taken, but its name is
`micromamba.tmp.lock` (derived from the temp file path passed to
`extractTarFile`), and no lock named `micromamba.lock` — the claim's
`<target>.lock` — ever appears in the trace. -/
theorem extract_lock_name_counterexample :
    lockNames (downloadAndUnpackArchive mmUrl [mmHeader] [] mmMap allLocksOk copyFive).2
        = ["micromamba.tmp.lock"] ∧
    ((downloadAndUnpackArchive mmUrl [mmHeader] [] mmMap allLocksOk copyFive).2.all
        (fun e => match e with
          | FsEvent.lockAttempt n _ => n != "micromamba.lock"
          | _ => true)) = true := by decide

/-- C3 amended: during a single `installFrom` run the only advisory
lock taken is per target file path but named `<target>.tmp.lock` (the
lock is derived from the temp file path); it is acquired with bounded
retry (10 attempts, 100 ms initial backoff, 5 s cap) only within the
write-temp-file step, after the network fetch has been issued; no
directory-wide lock is taken by `installFrom` itself. -/
theorem installFrom_lock_discipline (url : String) (tarEntries : List TarHeader)
    (zipEntries : List ZipEntry) (m : List (String × String))
    (lk : Nat → Bool) (cp : Nat → Nat) :
    extractRetrier = ⟨10, 100, 5000⟩ ∧
    (∀ e ∈ (downloadAndUnpackArchive url tarEntries zipEntries m lk cp).2,
        isLockEvent e = true →
        ∃ t, isMapTarget m t ∧ t ≠ "" ∧
          ∃ b, e = FsEvent.lockAttempt (t ++ ".tmp" ++ ".lock") b) ∧
    ((downloadAndUnpackArchive url tarEntries zipEntries m lk cp).2.countP isLockEvent
        ≤ extractRetrier.maxAttempts) ∧
    ((downloadAndUnpackArchive url tarEntries zipEntries m lk cp).2 = [] ∨
      ∃ evs, (downloadAndUnpackArchive url tarEntries zipEntries m lk cp).2
          = FsEvent.fetch url :: evs ∧ ∀ e ∈ evs, isFetchEvent e = false) := by
  have lockShape : ∀ (entries : List TarHeader) (e : FsEvent),
      e ∈ (extractTarFiles entries m lk cp).2 → isLockEvent e = true →
      ∃ t, isMapTarget m t ∧ t ≠ "" ∧
        ∃ b, e = FsEvent.lockAttempt (t ++ ".tmp" ++ ".lock") b := by
    intro entries e he hl
    obtain ⟨t, hmt, hne, hshape⟩ := extractTarFiles_events entries m lk cp e he
    rcases hshape with ⟨b, rfl⟩ | ⟨n, rfl⟩ | rfl | rfl
    · exact ⟨t, hmt, hne, b, rfl⟩
    · exact absurd hl (by simp [isLockEvent])
    · exact absurd hl (by simp [isLockEvent])
    · exact absurd hl (by simp [isLockEvent])
  have noFetch : ∀ (entries : List TarHeader) (e : FsEvent),
      e ∈ (extractTarFiles entries m lk cp).2 → isFetchEvent e = false := by
    intro entries e he
    obtain ⟨t, _, _, hshape⟩ := extractTarFiles_events entries m lk cp e he
    rcases hshape with ⟨b, rfl⟩ | ⟨n, rfl⟩ | rfl | rfl <;> rfl
  refine ⟨rfl, ?_⟩
  unfold downloadAndUnpackArchive
  cases harch : inferArchiveTypeFromUrl url with
  | TarBz2Archive =>
    unfold downloadAndUnpackTarBz2
    refine ⟨?_, ?_, ?_⟩
    · intro e he hl
      simp only [List.mem_cons] at he
      rcases he with rfl | he
      · exact absurd hl (by simp [isLockEvent])
      · exact lockShape tarEntries e he hl
    · simp only [List.countP_cons]
      have h0 : isLockEvent (FsEvent.fetch url) = false := rfl
      simp [h0]
      exact extractTarFiles_lockCount tarEntries m lk cp
    · exact Or.inr ⟨(extractTarFiles tarEntries m lk cp).2, rfl, noFetch tarEntries⟩
  | CondaArchive =>
    unfold downloadAndUnpackConda
    cases hfind : zipEntries.find?
        (fun f => strStartsWith f.name "pkg-conda-standalone" && strEndsWith f.name ".tar.zst") with
    | some f =>
      simp only [hfind]
      refine ⟨?_, ?_, ?_⟩
      · intro e he hl
        simp only [List.mem_cons] at he
        rcases he with rfl | he
        · exact absurd hl (by simp [isLockEvent])
        · exact lockShape f.tarEntries e he hl
      · simp only [List.countP_cons]
        have h0 : isLockEvent (FsEvent.fetch url) = false := rfl
        simp [h0]
        exact extractTarFiles_lockCount f.tarEntries m lk cp
      · exact Or.inr ⟨(extractTarFiles f.tarEntries m lk cp).2, rfl, noFetch f.tarEntries⟩
    | none =>
      simp only [hfind]
      refine ⟨?_, ?_, ?_⟩
      · intro e he hl
        simp only [List.mem_cons, List.not_mem_nil, or_false] at he
        subst he
        exact absurd hl (by simp [isLockEvent])
      · simp [List.countP_cons, isLockEvent, extractRetrier]
      · exact Or.inr ⟨[], rfl, by simp⟩
  | UnrecognizedArchive =>
    refine ⟨?_, ?_, ?_⟩
    · intro e he
      simp at he
    · simp
    · exact Or.inl rfl

/-- Witness for the amended C3 at the concrete micromamba run: the
trace contains at most `maxAttempts` lock attempts. -/
theorem installFrom_lock_discipline_witness :
    ((downloadAndUnpackArchive mmUrl [mmHeader] [] mmMap allLocksOk copyFive).2.countP
        isLockEvent) ≤ extractRetrier.maxAttempts :=
  (installFrom_lock_discipline mmUrl [mmHeader] [] mmMap allLocksOk copyFive).2.2.1

/-! ## C4: truncated writes abort before the rename -/

/-- C4: when every copy attempt for the extracted member returns a byte
count different from the header's recorded size, `installFrom` (tar.bz2
path shown; extraction is shared) returns an error and the trace
contains no rename event, so the target file is untouched. -/
theorem truncated_write_no_rename (url : String) (entries : List TarHeader)
    (m : List (String × String)) (lk : Nat → Bool) (cp : Nat → Nat) (h : TarHeader)
    (hmatch : firstRegMatch entries m = some h)
    (hcp : ∀ k, cp k ≠ h.size) :
    (∃ msg, (downloadAndUnpackTarBz2 url entries m lk cp).1 = Except.error msg) ∧
    ∀ e ∈ (downloadAndUnpackTarBz2 url entries m lk cp).2, isRenameEvent e = false := by
  obtain ⟨herr, hnorename⟩ := extractTarFiles_error_no_rename entries m lk cp h hmatch hcp
  unfold downloadAndUnpackTarBz2
  refine ⟨herr, ?_⟩
  intro e he
  simp only [List.mem_cons] at he
  rcases he with rfl | he
  · rfl
  · exact hnorename e he

/-- Witness for C4: with a 5-byte member but 3 bytes copied on every
attempt, the concrete run produces no rename event anywhere in its
trace. -/
theorem truncated_write_no_rename_witness :
    ((downloadAndUnpackTarBz2 mmUrl [mmHeader] mmMap allLocksOk copyThree).2.all
        (fun e => !isRenameEvent e)) = true := by
  have h := truncated_write_no_rename mmUrl [mmHeader] mmMap allLocksOk copyThree mmHeader
    (by decide) (fun _ => (by decide : (3 : Nat) ≠ 5))
  exact List.all_eq_true.mpr (fun e he => by simp [h.2 e he])

/-! ## C5: freshness gating -/

/-- C5: with a valid channel, an existing target whose age is greater
than the −60 s tolerance and less than the 24 h window makes the
install return the existing path with no network request; a non-fresh
age (25 h, or −61 s, i.e. one second beyond the tolerance) proceeds to
the network; 23 h is fresh, 25 h and −61 s are not. -/
theorem freshness_gate (env ch subdir target : String) (registry : List AnacondaPkg)
    (pick : List AnacondaPkg → AnacondaPkg) (download : String → Except String String)
    (hch : getChannelName env = Except.ok ch) :
    (∀ age : Int, isFreshAge age = true →
        InstallCondaStandalone env subdir target (some age) registry pick download
          = (Except.ok target, false)) ∧
    (∀ age : Int, isFreshAge age = false →
        (InstallCondaStandalone env subdir target (some age) registry pick download).2
          = true) ∧
    isFreshAge (23 * 3600 * 1000000000) = true ∧
    isFreshAge (25 * 3600 * 1000000000) = false ∧
    isFreshAge (-61 * 1000000000) = false := by
  refine ⟨?_, ?_, by decide, by decide, by decide⟩
  · intro age hfresh
    unfold InstallCondaStandalone
    rw [hch]
    simp [hfresh]
  · intro age hfresh
    unfold InstallCondaStandalone
    rw [hch]
    simp only [hfresh, if_false]
    by_cases hempt : (candidatesFiltered registry subdir).isEmpty
    · simp [hempt]
    · simp only [hempt, if_false]
      cases hdl : download ("https:" ++ (pick (candidatesFiltered registry subdir)).DownloadUrl) with
      | error e => simp [hdl]
      | ok exe => simp [hdl]

/-- Witness for C5: default channel, 23-hour-old install — returned
as-is with no network request. -/
theorem freshness_gate_witness :
    InstallCondaStandalone "" "linux-64" "tgt" (some (23 * 3600 * 1000000000)) [] trivialPick
        trivialDownload = (Except.ok "tgt", false) :=
  (freshness_gate "" "anaconda" "linux-64" "tgt" [] trivialPick trivialDownload
    rfl).1 _ (by decide)

/-! ## C6: channel-name validation -/

/-- C6: any channel environment value containing a character outside
`[a-zA-Z0-9_-]` makes `getChannelName` fail, and the install returns a
validation error having issued no network request; a non-empty value
matching the class passes validation unchanged. -/
theorem channel_validation :
    (∀ env : String, env.toList.any (fun c => !validChannelChar c) = true →
        (∃ msg, getChannelName env = Except.error msg) ∧
        ∀ (subdir target : String) (statAge : Option Int) (registry : List AnacondaPkg)
          (pick : List AnacondaPkg → AnacondaPkg) (download : String → Except String String),
          (InstallCondaStandalone env subdir target statAge registry pick download).2
              = false ∧
          ∃ msg, (InstallCondaStandalone env subdir target statAge registry pick download).1
              = Except.error msg) ∧
    (∀ env : String, env ≠ "" → env.toList.all validChannelChar = true →
        getChannelName env = Except.ok env) := by
  constructor
  · intro env hbad
    have hne : env ≠ "" := by
      intro h
      subst h
      simp at hbad
    rcases List.any_eq_true.mp hbad with ⟨c, hc, hcv⟩
    have hcv' : validChannelChar c = false := by simpa using hcv
    have henv : (env == "") = false := by simpa using hne
    have hPn : ¬(¬env = "" ∧ ∀ x ∈ env.data, validChannelChar x = true) := by
      rintro ⟨-, hforall⟩
      have := hforall c hc
      rw [this] at hcv'
      exact absurd hcv' (by simp)
    have hmsg : getChannelName env = Except.error ("invalid channel name " ++ env ++
        ". Channel names must be alphanumeric and may contain hyphens and underscores") := by
      unfold getChannelName
      simp only [henv, Bool.false_eq_true, if_false]
      simp only [Bool.and_eq_true, bne_iff_ne, ne_eq, List.all_eq_true]
      rw [if_neg (by simpa using hPn)]
    refine ⟨⟨_, hmsg⟩, ?_⟩
    intro subdir target statAge registry pick download
    unfold InstallCondaStandalone
    rw [hmsg]
    exact ⟨rfl, _, rfl⟩
  · intro env hne hall
    have henv : (env == "") = false := by simpa using hne
    have hP : ¬env = "" ∧ ∀ x ∈ env.data, validChannelChar x = true :=
      ⟨hne, List.all_eq_true.mp hall⟩
    unfold getChannelName
    simp only [henv, Bool.false_eq_true, if_false]
    simp only [Bool.and_eq_true, bne_iff_ne, ne_eq, List.all_eq_true]
    rw [if_pos (by simpa using hP)]

/-- Witness for C6: the channel name `"ana;conda"` is rejected before
any network request. -/
theorem channel_validation_witness :
    (InstallCondaStandalone "ana;conda" "linux-64" "tgt" none [] trivialPick
        trivialDownload).2 = false :=
  ((channel_validation.1 "ana;conda" (by decide)).2 "linux-64" "tgt" none [] trivialPick
    trivialDownload).1

/-! ## C7: version predicate -/

theorem scan_eq_any (minVersion : List Nat) (pre : String) :
    ∀ lines : List (List Char),
      scanVersionLines minVersion pre lines = lines.any (lineQualifiesB minVersion pre)
  | [] => rfl
  | line :: rest => by
    rw [List.any_cons]
    unfold scanVersionLines lineQualifiesB
    by_cases hp : pre.toList.isPrefixOf line = true
    · rw [if_pos hp, hp, Bool.true_and]
      cases hv : pep440ParseChars (lastSpaceToken line) with
      | none =>
        simp only [hv, Bool.false_or]
        exact scan_eq_any minVersion pre rest
      | some v =>
        cases hrl : relLess v minVersion with
        | true =>
          simp only [hv, hrl, if_true, Bool.not_true, Bool.false_or]
          exact scan_eq_any minVersion pre rest
        | false => simp [hv, hrl]
    · have hp' : pre.toList.isPrefixOf line = false := Bool.eq_false_iff.mpr hp
      rw [if_neg (fun hcontra => absurd (hp'.symm.trans hcontra) Bool.false_ne_true),
        hp', Bool.false_and, Bool.false_or]
      exact scan_eq_any minVersion pre rest

/-- C7 counterexample: the version output `"conda\t4.8.2"` (tab
separated).  Its single line begins with `"conda"` and its last
*whitespace*-separated token is `4.8.2 ≥ 4.8.0`, so the claim requires
`(true, nil)`; but the code splits on single spaces only, fails to
parse `"conda\t4.8.2"` as a version, and returns `(false, nil)`. -/
theorem version_check_whitespace_counterexample :
    executableHasMinVersion [4, 8, 0] "conda" (Except.ok "conda\t4.8.2") = (false, none) ∧
    (splitVersionOutput "conda\t4.8.2").any (lineQualifiesSpecB [4, 8, 0] "conda") = true := by
  decide

/-- C7 amended: `executableHasMinVersion` returns `(true, nil)` iff
some line of the (CRLF-normalized) output begins with the prefix and
its final field after splitting on single space characters parses as a
version not less than `minVersion` (a trailing space makes that field
empty, hence unparseable); it returns `(false, error)` exactly when the
executable could not be invoked, and otherwise `(false, nil)`. -/
theorem version_check_characterization (minVersion : List Nat) (pre : String)
    (execResult : Except String String) :
    executableHasMinVersion minVersion pre execResult =
      match execResult with
      | Except.error e => (false, some e)
      | Except.ok stdout =>
        ((splitVersionOutput stdout).any (lineQualifiesB minVersion pre), none) := by
  cases execResult with
  | error e => rfl
  | ok stdout =>
    show (scanVersionLines minVersion pre (splitVersionOutput stdout), none)
        = ((splitVersionOutput stdout).any (lineQualifiesB minVersion pre), none)
    rw [scan_eq_any]

/-! ## C8: path resolution -/

theorem findExecutable_spec (name : String) (fs : String → Option FileStat)
    (predicate : String → Except String Bool) :
    ∀ dirs : List String,
      FindExecutable name dirs fs predicate =
        match dirs.find? (dirQualifies name fs predicate) with
        | some d => Except.ok (joinPath (if d == "" then "." else d) name)
        | none => Except.error "could not find executable"
  | [] => rfl
  | dir :: rest => by
    by_cases hq : dirQualifies name fs predicate dir = true
    · rw [List.find?_cons_of_pos _ hq]
      have hq' := hq
      unfold dirQualifies at hq'
      rw [Bool.and_eq_true] at hq'
      obtain ⟨h1, h2⟩ := hq'
      unfold FindExecutable
      rw [if_pos h1]
      cases hpred : predicate (joinPath (if dir == "" then "." else dir) name) with
      | ok b =>
        cases b with
        | true => rfl
        | false => rw [hpred] at h2; simp at h2
      | error e => rw [hpred] at h2; simp at h2
    · rw [List.find?_cons_of_neg _ hq]
      have hq' : dirQualifies name fs predicate dir = false := Bool.eq_false_iff.mpr hq
      unfold dirQualifies at hq'
      unfold FindExecutable
      by_cases h1 : assertExecutable fs (joinPath (if dir == "" then "." else dir) name) = true
      · rw [if_pos h1]
        rw [h1, Bool.true_and] at hq'
        cases hpred : predicate (joinPath (if dir == "" then "." else dir) name) with
        | ok b =>
          cases b with
          | true => rw [hpred] at hq'; simp at hq'
          | false => exact findExecutable_spec name fs predicate rest
        | error e => exact findExecutable_spec name fs predicate rest
      · rw [if_neg h1]
        exact findExecutable_spec name fs predicate rest

/-- C8: `ResolveExecutable` searches `[dataDir]` followed by the system
path with every directory containing `".pyenv/shims"` removed, returns
`dir/name` for the first qualifying directory (entry exists, is not a
directory, has an executable bit, and the predicate returns
`(true, nil)`); a qualifying data directory always wins; a success is
always a path built from a qualifying search-path entry; and when no
entry qualifies the result is the `NotFound` error, never a success. -/
theorem resolve_search_order (name dataDir : String) (pathEnv : List String)
    (fs : String → Option FileStat) (predicate : String → Except String Bool) :
    (ResolveExecutable name dataDir pathEnv fs predicate =
      match (dataDir :: pathEnv.filter (fun d => !strContains d pyenvShims)).find?
          (dirQualifies name fs predicate) with
      | some d => Except.ok (joinPath (if d == "" then "." else d) name)
      | none => Except.error "could not find executable") ∧
    (dirQualifies name fs predicate dataDir = true →
      ResolveExecutable name dataDir pathEnv fs predicate
        = Except.ok (joinPath (if dataDir == "" then "." else dataDir) name)) ∧
    (∀ p, ResolveExecutable name dataDir pathEnv fs predicate = Except.ok p →
      ∃ d ∈ dataDir :: pathEnv.filter (fun d => !strContains d pyenvShims),
        dirQualifies name fs predicate d = true ∧
          p = joinPath (if d == "" then "." else d) name) ∧
    ((∀ d ∈ dataDir :: pathEnv.filter (fun d => !strContains d pyenvShims),
        dirQualifies name fs predicate d = false) →
      ResolveExecutable name dataDir pathEnv fs predicate
        = Except.error "could not find executable") := by
  have hmain : ResolveExecutable name dataDir pathEnv fs predicate =
      match (dataDir :: pathEnv.filter (fun d => !strContains d pyenvShims)).find?
          (dirQualifies name fs predicate) with
      | some d => Except.ok (joinPath (if d == "" then "." else d) name)
      | none => Except.error "could not find executable" :=
    findExecutable_spec name fs predicate _
  refine ⟨hmain, ?_, ?_, ?_⟩
  · intro hq
    rw [hmain, List.find?_cons_of_pos _ hq]
  · intro p hp
    rw [hmain] at hp
    cases hfind : (dataDir :: pathEnv.filter (fun d => !strContains d pyenvShims)).find?
        (dirQualifies name fs predicate) with
    | some d =>
      rw [hfind] at hp
      refine ⟨d, List.mem_of_find?_eq_some hfind, List.find?_some hfind, ?_⟩
      injection hp with hp
      exact hp.symm
    | none =>
      rw [hfind] at hp
      exact absurd hp (by simp)
  · intro hnone
    rw [hmain]
    have : (dataDir :: pathEnv.filter (fun d => !strContains d pyenvShims)).find?
        (dirQualifies name fs predicate) = none := by
      rw [List.find?_eq_none]
      intro d hd
      simp [hnone d hd]
    rw [this]

/-- Witness for C8: the injected data directory wins when it holds an
executable `conda` accepted by the predicate. -/
theorem resolve_search_order_witness :
    ResolveExecutable "conda" "/data" ["/usr/bin"] dataDirFs okPredicate
      = Except.ok "/data/conda" :=
  (resolve_search_order "conda" "/data" ["/usr/bin"] dataDirFs okPredicate).2.1 (by decide)

/-! ## C9: absence signalling of EnsureConda -/

theorem step4_empty (condaStandalone noInstall : Bool)
    (resolve : String → String) (install : String → Except String String)
    (check : String → String → Bool)
    (hcs : condaStandalone = true → resolve "conda_standalone" = "" ∧
      (noInstall = true ∨ ∃ e, install "conda_standalone" = Except.ok e ∧
        check "conda_standalone" e = false)) :
    ensureCondaStep4 condaStandalone noInstall resolve install check = ("", none) := by
  cases condaStandalone with
  | false => rfl
  | true =>
    obtain ⟨hr, hin⟩ := hcs rfl
    unfold ensureCondaStep4
    cases noInstall with
    | true => simp [hr]
    | false =>
      rcases hin with hni | ⟨e, hinst, hchk⟩
      · exact absurd hni (by simp)
      · simp [hr, hinst, hchk]

theorem step3_empty (conda condaStandalone noInstall : Bool)
    (resolve : String → String) (install : String → Except String String)
    (check : String → String → Bool)
    (hc : conda = true → resolve "conda" = "")
    (hcs : condaStandalone = true → resolve "conda_standalone" = "" ∧
      (noInstall = true ∨ ∃ e, install "conda_standalone" = Except.ok e ∧
        check "conda_standalone" e = false)) :
    ensureCondaStep3 conda condaStandalone noInstall resolve install check = ("", none) := by
  unfold ensureCondaStep3
  have hcond : (conda && decide (resolve "conda" ≠ "")) = false := by
    cases conda with
    | false => rfl
    | true => simp [hc rfl]
  rw [if_neg (fun hcontra => absurd (hcond.symm.trans hcontra) Bool.false_ne_true)]
  exact step4_empty condaStandalone noInstall resolve install check hcs

theorem step2_empty (micromamba conda condaStandalone noInstall : Bool)
    (resolve : String → String) (install : String → Except String String)
    (check : String → String → Bool)
    (hmm : micromamba = true → resolve "micromamba" = "" ∧
      (noInstall = true ∨ ∃ e, install "micromamba" = Except.ok e ∧
        check "micromamba" e = false))
    (hc : conda = true → resolve "conda" = "")
    (hcs : condaStandalone = true → resolve "conda_standalone" = "" ∧
      (noInstall = true ∨ ∃ e, install "conda_standalone" = Except.ok e ∧
        check "conda_standalone" e = false)) :
    ensureCondaStep2 micromamba conda condaStandalone noInstall resolve install check
      = ("", none) := by
  have h3 := step3_empty conda condaStandalone noInstall resolve install check hc hcs
  cases micromamba with
  | false =>
    unfold ensureCondaStep2
    simpa using h3
  | true =>
    obtain ⟨hr, hin⟩ := hmm rfl
    unfold ensureCondaStep2
    cases noInstall with
    | true => simpa [hr] using h3
    | false =>
      rcases hin with hni | ⟨e, hinst, hchk⟩
      · exact absurd hni (by simp)
      · simpa [hr, hinst, hchk] using h3

/-- C9 counterexample: only micromamba is requested, it is not on the
search path, installs are allowed, and the install attempt fails with
an error — "no install succeeds" — yet `EnsureConda` returns the error,
not `("", nil)`. -/
theorem ensureConda_install_error_counterexample :
    noResolve "micromamba" = "" ∧
    failInstall "micromamba" = Except.error "download failed" ∧
    EnsureConda false true false false false noResolve failInstall noCheck
      = ("", some "download failed") := by
  refine ⟨rfl, rfl, ?_⟩
  decide

/-- C9 amended: when every requested tool is disabled or not found on
the search path, and for each installable requested tool installs are
disallowed or the attempted install returns (without error) an
executable that fails validation, `EnsureConda` returns `("", nil)`:
absence is signalled by the empty path.  (An install attempt that
returns an error yields `("", err)` instead.) -/
theorem ensureConda_absence_empty_nil
    (mamba micromamba conda condaStandalone noInstall : Bool)
    (resolve : String → String) (install : String → Except String String)
    (check : String → String → Bool)
    (hm : mamba = true → resolve "mamba" = "")
    (hmm : micromamba = true → resolve "micromamba" = "" ∧
      (noInstall = true ∨ ∃ e, install "micromamba" = Except.ok e ∧
        check "micromamba" e = false))
    (hc : conda = true → resolve "conda" = "")
    (hcs : condaStandalone = true → resolve "conda_standalone" = "" ∧
      (noInstall = true ∨ ∃ e, install "conda_standalone" = Except.ok e ∧
        check "conda_standalone" e = false)) :
    EnsureConda mamba micromamba conda condaStandalone noInstall resolve install check
      = ("", none) := by
  unfold EnsureConda
  have hcond : (mamba && decide (resolve "mamba" ≠ "")) = false := by
    cases mamba with
    | false => rfl
    | true => simp [hm rfl]
  rw [if_neg (fun hcontra => absurd (hcond.symm.trans hcontra) Bool.false_ne_true)]
  exact step2_empty micromamba conda condaStandalone noInstall resolve install check
    hmm hc hcs

/-- Witness for the amended C9: micromamba requested and not found,
install succeeds but the executable fails validation — result
`("", nil)`. -/
theorem ensureConda_absence_empty_nil_witness :
    EnsureConda false true false false false noResolve badExeInstall noCheck = ("", none) :=
  ensureConda_absence_empty_nil false true false false false noResolve badExeInstall noCheck
    (fun h => by simp at h)
    (fun _ => ⟨rfl, Or.inr ⟨"/data/micromamba", rfl, rfl⟩⟩)
    (fun h => by simp at h)
    (fun h => by simp at h)

/-! ## C10: unsupported platforms fall through to the empty subdir -/

/-- C10: for every OS/arch pair outside the six supported ones,
`PlatformSubdir` returns `""` (no error); filtering the registry on the
empty subdir matches nothing when no registry entry has an empty
subdir, so `computeCandidates` fails with the no-parseable-versions
error rather than reporting an unsupported platform. -/
theorem platform_subdir_fallback :
    (∀ osName arch : String, ¬((osName, arch) ∈ supportedPairs) →
        PlatformSubdir osName arch = "") ∧
    (∀ data : List AnacondaPkg, (∀ d ∈ data, d.Attrs.Subdir ≠ "") →
        candidatesFiltered data "" = [] ∧
        ∀ sortImpl, computeCandidates sortImpl data "" = Except.error (noParseMsg "")) := by
  constructor
  · intro osName arch hmem
    unfold PlatformSubdir
    repeat' split
    all_goals first
      | rfl
      | (exfalso
         rename_i hcond
         simp only [Bool.and_eq_true, beq_iff_eq] at hcond
         exact hmem (by rw [hcond.1, hcond.2]; decide))
  · intro data hsub
    have h1 : data.filter
        (fun d => d.Attrs.Subdir == "" && !strContains d.Attrs.Build "_onedir_") = [] := by
      rw [List.filter_eq_nil_iff]
      intro a ha
      simp [hsub a ha]
    have h2 : candidatesFiltered data "" = [] := by
      unfold candidatesFiltered
      rw [h1]
      rfl
    refine ⟨h2, fun sortImpl => ?_⟩
    unfold computeCandidates
    simp [h2]

/-- Witness for C10: linux/riscv64 is unsupported and maps to `""`. -/
theorem platform_subdir_fallback_witness :
    PlatformSubdir "linux" "riscv64" = "" :=
  platform_subdir_fallback.1 "linux" "riscv64" (by decide)
